import Mathlib

/-!
Verification of the session-pool / rate-limiter / cache core of the
subdriver service against its natural-language specification.

The definitions below are a shallow embedding of the Python source:

* `PoolSt`, `acquire`, `release` embed `TabPool` from `app/core/browser.py`.
  Every statement of `TabPool.acquire` and `TabPool.release` runs under the
  single pool lock (`async with self.lock`), so their effect on the pool
  state is atomic and is modelled as a pure state transformer.  Tabs are
  identified by `Nat` ids (Python `TabInfo` hashes by object identity); the
  free queue `available_tabs` is a FIFO list carrying each tab's
  `last_used` stamp; the leased set `in_use_tabs` is a list used as a set.
  Time is modelled as `Rat` (Python float seconds).
* The branch of `acquire` that waits on `available_tabs.get()` while the
  pool is at capacity never completes in the source (the waiter holds
  `self.lock`, which `release` needs; see the task-level model further
  below), so the atomic transformer returns `none` there: no session is
  handed out on that path.
-/

namespace Subdriver

/-- State of `TabPool`: the free FIFO queue `available_tabs` (tab id and its
`last_used` timestamp), the leased set `in_use_tabs` (tab ids), the
configuration `max_tabs` / `max_idle_time`, and a counter supplying fresh
tab ids for `_create_tab`. -/
structure PoolSt where
  maxTabs : Nat
  maxIdleTime : Rat
  available : List (Nat × Rat)
  inUse : List Nat
  nextId : Nat
  deriving DecidableEq, Repr

/-- Adding an element to a set modelled as a duplicate-free list
(`self.in_use_tabs.add(tab_info)`). -/
def addSet (x : Nat) (l : List Nat) : List Nat := if x ∈ l then l else x :: l

/-- Initial pool: `TabPool(max_tabs, max_idle_time)` with empty queue and
empty leased set. -/
def initPool (maxTabs : Nat) (maxIdleTime : Rat) : PoolSt :=
  { maxTabs := maxTabs, maxIdleTime := maxIdleTime,
    available := [], inUse := [], nextId := 0 }

/-- `TabPool.acquire`, as the atomic state transformer executed under
`self.lock`.  First the free queue is tried (`wait_for(..., 0.1)`): a
non-empty queue yields its front tab, which is reused if its idle time
`now - last_used` is within `max_idle_time` and otherwise closed and
replaced by a freshly created tab.  On an empty queue (`TimeoutError`), a
fresh tab is created when `len(in_use_tabs) < max_tabs`; otherwise the
source blocks forever on `available_tabs.get()` while holding the lock, so
no session is handed out (`none`). -/
def acquire (now : Rat) (s : PoolSt) : Option (Nat × PoolSt) :=
  match s.available with
  | (tid, lu) :: rest =>
    if s.maxIdleTime < now - lu then
      some (s.nextId,
        { s with available := rest, inUse := addSet s.nextId s.inUse,
                 nextId := s.nextId + 1 })
    else
      some (tid, { s with available := rest, inUse := addSet tid s.inUse })
  | [] =>
    if s.inUse.length < s.maxTabs then
      some (s.nextId,
        { s with inUse := addSet s.nextId s.inUse, nextId := s.nextId + 1 })
    else
      none

/-- `TabPool.release`, as the atomic state transformer executed under
`self.lock`: the tab is removed from `in_use_tabs` when tracked there
(`if tab_info in self.in_use_tabs`), its `last_used` is set to the release
time, and it is unconditionally appended to the free queue
(`available_tabs.put`). -/
def release (now : Rat) (tid : Nat) (s : PoolSt) : PoolSt :=
  { s with inUse := s.inUse.erase tid,
           available := s.available ++ [(tid, now)] }

/-- One pool operation of a caller trace: an `acquire` or a `release` at a
given instant. -/
inductive PoolOp where
  | acq (now : Rat)
  | rel (tid : Nat) (now : Rat)
  deriving DecidableEq, Repr

/-- Effect of one operation on the pool state (a blocked `acquire` leaves
the state unchanged: in the source it never completes). -/
def poolStep (s : PoolSt) : PoolOp → PoolSt
  | .acq now =>
    match acquire now s with
    | some (_, s') => s'
    | none => s
  | .rel tid now => release now tid s

/-- Run a trace of pool operations. -/
def runPool (s : PoolSt) : List PoolOp → PoolSt
  | [] => s
  | op :: ops => runPool (poolStep s op) ops

/-- Ids of all sessions the pool currently tracks: free queue then leased
set. -/
def poolIds (s : PoolSt) : List Nat := s.available.map Prod.fst ++ s.inUse

/-- Number of distinct sessions in the free queue plus the leased set. -/
def sessionCount (s : PoolSt) : Nat := (poolIds s).dedup.length

/-- Tracks, alongside the pool state, the set of session ids ever issued by
`acquire` along a trace. -/
def poolStepI : PoolSt × List Nat → PoolOp → PoolSt × List Nat
  | (s, iss), .acq now =>
    match acquire now s with
    | some (t, s') => (s', addSet t iss)
    | none => (s, iss)
  | (s, iss), .rel tid now => (release now tid s, iss)

/-- Check of one operation against the issued set: a release may only name
a session some earlier `acquire` returned. -/
def relIssuedOk (iss : List Nat) : PoolOp → Bool
  | .rel tid _ => decide (tid ∈ iss)
  | .acq _ => true

/-- A trace in which every `release` names a session the pool issued
(the hypothesis of the capacity claim as stated; double releases are
allowed by it). -/
def releasesIssued : PoolSt × List Nat → List PoolOp → Bool
  | _, [] => true
  | p, op :: ops => relIssuedOk p.2 op && releasesIssued (poolStepI p op) ops

/-- A trace in which every `release` names a session that is leased at the
moment of the call (each release matches an outstanding lease, so no
double release). -/
def wellScoped : PoolSt → List PoolOp → Bool
  | _, [] => true
  | s, op :: ops =>
    (match op with
     | .rel tid _ => decide (tid ∈ s.inUse)
     | .acq _ => true) && wellScoped (poolStep s op) ops

/-- Pool invariant: the tracked ids are pairwise distinct, the free+leased
count is bounded by `max_tabs`, and every tracked id is below the
fresh-id counter. -/
def PoolInv (s : PoolSt) : Prop :=
  (poolIds s).Nodup ∧
  s.available.length + s.inUse.length ≤ s.maxTabs ∧
  ∀ t ∈ poolIds s, t < s.nextId

lemma addSet_eq_cons {x : Nat} {l : List Nat} (h : x ∉ l) : addSet x l = x :: l := by
  simp [addSet, h]

lemma poolInv_acquire {s : PoolSt} {now : Rat} {t : Nat} {s' : PoolSt}
    (hInv : PoolInv s) (h : acquire now s = some (t, s')) :
    PoolInv s' ∧ s'.maxTabs = s.maxTabs := by
  obtain ⟨nd, bd, lt⟩ := hInv
  match hav : s.available with
  | (tid, lu) :: rest =>
    rw [poolIds, hav] at nd lt
    rw [hav] at bd
    simp only [List.map_cons, List.cons_append, List.nodup_cons] at nd
    obtain ⟨htid, nd'⟩ := nd
    simp only [acquire, hav] at h
    simp only [List.length_cons] at bd
    by_cases hstale : s.maxIdleTime < now - lu
    · simp only [if_pos hstale, Option.some.injEq, Prod.mk.injEq] at h
      obtain ⟨ht, hs⟩ := h
      subst ht; subst hs
      have hfresh : s.nextId ∉ s.inUse := fun hm =>
        absurd (lt s.nextId (by simp [hm])) (by omega)
      refine ⟨⟨?_, ?_, ?_⟩, rfl⟩
      · dsimp only [poolIds]
        rw [addSet_eq_cons hfresh]
        refine List.Perm.nodup List.perm_middle.symm (List.nodup_cons.mpr ⟨?_, nd'⟩)
        intro hmem
        rcases List.mem_append.mp hmem with hm | hm
        · have := lt s.nextId (by simp [hm]); omega
        · exact hfresh hm
      · dsimp only
        rw [addSet_eq_cons hfresh]
        simp only [List.length_cons]
        omega
      · intro x hx
        dsimp only [poolIds] at hx ⊢
        rw [addSet_eq_cons hfresh] at hx
        simp only [List.mem_append, List.mem_cons] at hx
        rcases hx with hx | hx | hx
        · have := lt x (by simp [hx]); omega
        · omega
        · have := lt x (by simp [hx]); omega
    · simp only [if_neg hstale, Option.some.injEq, Prod.mk.injEq] at h
      obtain ⟨ht, hs⟩ := h
      subst ht; subst hs
      have htid2 : tid ∉ s.inUse := fun hm => htid (by simp [hm])
      refine ⟨⟨?_, ?_, ?_⟩, rfl⟩
      · dsimp only [poolIds]
        rw [addSet_eq_cons htid2]
        exact List.Perm.nodup List.perm_middle.symm (List.nodup_cons.mpr ⟨htid, nd'⟩)
      · dsimp only
        rw [addSet_eq_cons htid2]
        simp only [List.length_cons]
        omega
      · intro x hx
        dsimp only [poolIds] at hx ⊢
        rw [addSet_eq_cons htid2] at hx
        simp only [List.mem_append, List.mem_cons] at hx
        rcases hx with hx | hx | hx
        · exact lt x (by simp [hx])
        · exact lt x (by simp [hx])
        · exact lt x (by simp [hx])
  | [] =>
    rw [poolIds, hav] at nd lt
    rw [hav] at bd
    simp only [List.length_nil] at bd
    simp only [acquire, hav] at h
    by_cases hcap : s.inUse.length < s.maxTabs
    · simp only [if_pos hcap, Option.some.injEq, Prod.mk.injEq] at h
      obtain ⟨ht, hs⟩ := h
      subst ht; subst hs
      have hfresh : s.nextId ∉ s.inUse := fun hm =>
        absurd (lt s.nextId (by simp [hm])) (by omega)
      refine ⟨⟨?_, ?_, ?_⟩, rfl⟩
      · dsimp only [poolIds]
        rw [addSet_eq_cons hfresh]
        simp only [List.map_nil, List.nil_append, List.nodup_cons] at nd ⊢
        exact ⟨hfresh, nd⟩
      · dsimp only
        rw [addSet_eq_cons hfresh]
        simp only [List.length_cons, List.length_nil]
        omega
      · intro x hx
        dsimp only [poolIds] at hx ⊢
        rw [addSet_eq_cons hfresh] at hx
        simp only [List.map_nil, List.nil_append, List.mem_cons] at hx
        rcases hx with hx | hx
        · omega
        · have := lt x (by simp [hx]); omega
    · simp [if_neg hcap] at h

lemma poolInv_release {s : PoolSt} {tid : Nat} {now : Rat}
    (hInv : PoolInv s) (hmem : tid ∈ s.inUse) :
    PoolInv (release now tid s) ∧ (release now tid s).maxTabs = s.maxTabs := by
  obtain ⟨nd, bd, lt⟩ := hInv
  have hperm : s.inUse.Perm (tid :: s.inUse.erase tid) := List.perm_cons_erase hmem
  refine ⟨⟨?_, ?_, ?_⟩, rfl⟩
  · rw [poolIds, release]
    simp only [List.map_append, List.map_cons, List.map_nil]
    have : (s.available.map Prod.fst ++ [tid]) ++ s.inUse.erase tid
        = s.available.map Prod.fst ++ (tid :: s.inUse.erase tid) := by
      simp
    rw [this]
    exact List.Perm.nodup (List.Perm.append_left _ hperm) nd
  · simp only [release, List.length_append, List.length_cons, List.length_nil]
    have h1 : (s.inUse.erase tid).length = s.inUse.length - 1 :=
      List.length_erase_of_mem hmem
    have h2 : 0 < s.inUse.length := List.length_pos.mpr (List.ne_nil_of_mem hmem)
    omega
  · intro x hx
    refine lt x ?_
    rw [poolIds, release] at hx
    simp only [List.map_append, List.map_cons, List.map_nil, List.mem_append,
      List.mem_cons, List.not_mem_nil, or_false] at hx
    rw [poolIds]
    simp only [List.mem_append]
    rcases hx with (hx | hx) | hx
    · exact Or.inl hx
    · subst hx; exact Or.inr hmem
    · exact Or.inr (List.mem_of_mem_erase hx)

lemma poolInv_run {s : PoolSt} {tr : List PoolOp} (hInv : PoolInv s)
    (hws : wellScoped s tr = true) :
    PoolInv (runPool s tr) ∧ (runPool s tr).maxTabs = s.maxTabs := by
  induction tr generalizing s with
  | nil => exact ⟨hInv, rfl⟩
  | cons op ops ih =>
    have hstep : PoolInv (poolStep s op) ∧ (poolStep s op).maxTabs = s.maxTabs := by
      cases op with
      | acq now =>
        rcases hacq : acquire now s with _ | ⟨t, s'⟩
        · simp only [poolStep, hacq]
          exact ⟨hInv, trivial⟩
        · simp only [poolStep, hacq]
          exact poolInv_acquire hInv hacq
      | rel tid now =>
        simp only [wellScoped, Bool.and_eq_true, decide_eq_true_eq] at hws
        exact poolInv_release hInv hws.1
    have hws' : wellScoped (poolStep s op) ops = true := by
      cases op <;> simp only [wellScoped, Bool.and_eq_true] at hws <;> exact hws.2
    have hrest := ih hstep.1 hws'
    exact ⟨hrest.1, hrest.2.trans hstep.2⟩

/-- C1 (amended): for every trace of `acquire`/`release` calls on a pool of
maximum size `M` in which each `release` names a session that is currently
leased (each release matches an outstanding lease; no double release), the
number of distinct sessions in the leased set plus the free set never
exceeds `M`.  Stated at the end of an arbitrary such trace, which covers
every intermediate point since every prefix of such a trace is again such
a trace. -/
theorem c1_capacity (M : Nat) (idle : Rat) (tr : List PoolOp)
    (h : wellScoped (initPool M idle) tr = true) :
    sessionCount (runPool (initPool M idle) tr) ≤ M := by
  have hInv : PoolInv (initPool M idle) :=
    ⟨by simp [poolIds, initPool], by simp [initPool], by simp [poolIds, initPool]⟩
  obtain ⟨⟨nd, bd, -⟩, hM⟩ := poolInv_run hInv h
  unfold sessionCount
  rw [List.dedup_eq_self.mpr nd]
  have hlen : (poolIds (runPool (initPool M idle) tr)).length
      = (runPool (initPool M idle) tr).available.length
        + (runPool (initPool M idle) tr).inUse.length := by
    simp [poolIds]
  rw [hlen, hM] at *
  simpa [initPool] using bd

/-- C1 (counterexample): with maximum size 1, the trace
acquire, release, release (a double release of the session the pool
issued), acquire at a time when the queued session has gone stale, ends
with 2 distinct sessions across leased+free, exceeding the maximum.  Every
release in the trace names a session the pool issued, so the claim as
stated (which only excludes sessions the pool never issued) is false. -/
theorem c1_counterexample :
    releasesIssued (initPool 1 10, []) [.acq 0, .rel 0 0, .rel 0 0, .acq 20] = true ∧
    1 < sessionCount (runPool (initPool 1 10) [.acq 0, .rel 0 0, .rel 0 0, .acq 20]) := by
  refine ⟨by decide, ?_⟩
  norm_num [sessionCount, poolIds, runPool, poolStep, acquire, release, initPool, addSet]

/-- C1 (witness): a concrete well-scoped trace on a pool of maximum size 1
for which the capacity bound holds. -/
theorem c1_witness :
    wellScoped (initPool 1 300) [.acq 0, .rel 0 0, .acq 5] = true ∧
    sessionCount (runPool (initPool 1 300) [.acq 0, .rel 0 0, .acq 5]) ≤ 1 :=
  ⟨by decide, c1_capacity 1 300 [.acq 0, .rel 0 0, .acq 5] (by decide)⟩

/-- C6 (amended): releasing a session that is not currently in the leased
set is not rejected: the leased-set removal is skipped, but the session is
still unconditionally enqueued into the free queue.  Consequently a double
release duplicates the session in the free queue and two later `acquire`
calls can both lease the same session (see the counterexample). -/
theorem c6_untracked_release (s : PoolSt) (tid : Nat) (now : Rat)
    (h : tid ∉ s.inUse) :
    release now tid s = { s with available := s.available ++ [(tid, now)] } := by
  unfold release
  rw [List.erase_of_not_mem h]

/-- C6 (witness): releasing the never-issued session 5 into a fresh pool
appends it to the free queue and leaves the leased set empty. -/
theorem c6_witness :
    (5 : Nat) ∉ (initPool 2 300).inUse ∧
    release 1 5 (initPool 2 300)
      = { initPool 2 300 with available := (initPool 2 300).available ++ [(5, 1)] } :=
  ⟨by decide, c6_untracked_release (initPool 2 300) 5 1 (by decide)⟩

/-- C6 (counterexample): after acquire, release, release (double release),
the free queue holds session 0 twice, and the next two `acquire` calls —
with no release between them — both return session 0: two concurrent
leases hold the same session, so the claim that a double release cannot
lead to that is false. -/
theorem c6_counterexample :
    (runPool (initPool 2 300) [.acq 0, .rel 0 0, .rel 0 0]).available = [(0, 0), (0, 0)] ∧
    (acquire 0 (runPool (initPool 2 300) [.acq 0, .rel 0 0, .rel 0 0])).map Prod.fst
      = some 0 ∧
    (acquire 0 (runPool (initPool 2 300) [.acq 0, .rel 0 0, .rel 0 0, .acq 0])).map Prod.fst
      = some 0 := by
  refine ⟨?_, ?_, ?_⟩ <;>
    norm_num [runPool, poolStep, acquire, release, initPool, addSet]

/-- C8 (confirmed): under the pool invariant, any session handed out by
`acquire` is either the front session of the free queue with idle time
within `max_idle_time`, or a brand-new session that was not tracked by the
pool before the call; and whenever the front of the free queue is stale
(idle longer than `max_idle_time`), the session handed out is the freshly
created one and the stale session is destroyed (no longer tracked by the
pool afterwards). -/
theorem c8_no_stale_handout (s : PoolSt) (now : Rat) (t : Nat) (s' : PoolSt)
    (hInv : PoolInv s) (h : acquire now s = some (t, s')) :
    ((∃ lu rest, s.available = (t, lu) :: rest ∧ now - lu ≤ s.maxIdleTime) ∨
      t ∉ poolIds s) ∧
    (∀ tid lu rest, s.available = (tid, lu) :: rest → s.maxIdleTime < now - lu →
      t = s.nextId ∧ tid ∉ poolIds s') := by
  obtain ⟨nd, bd, lt⟩ := hInv
  match hav : s.available with
  | (tid0, lu0) :: rest0 =>
    rw [poolIds, hav] at nd lt
    simp only [List.map_cons, List.cons_append, List.nodup_cons] at nd
    obtain ⟨htid, nd'⟩ := nd
    simp only [acquire, hav] at h
    by_cases hstale : s.maxIdleTime < now - lu0
    · simp only [if_pos hstale, Option.some.injEq, Prod.mk.injEq] at h
      obtain ⟨ht, hs⟩ := h
      subst ht; subst hs
      have htid0lt : tid0 < s.nextId := lt tid0 (by simp)
      constructor
      · refine Or.inr fun hm => ?_
        rw [poolIds, hav] at hm
        have := lt s.nextId hm
        omega
      · intro tid lu rest heq hst
        simp only [List.cons.injEq, Prod.mk.injEq] at heq
        obtain ⟨⟨h1, h2⟩, h3⟩ := heq
        subst h1; subst h2; subst h3
        refine ⟨rfl, fun hm => ?_⟩
        have hfresh : s.nextId ∉ s.inUse := fun hm' =>
          absurd (lt s.nextId (by simp [hm'])) (by omega)
        rw [poolIds] at hm
        dsimp only at hm
        rw [addSet_eq_cons hfresh] at hm
        simp only [List.mem_append, List.mem_cons] at hm
        rcases hm with hm | hm | hm
        · exact htid (List.mem_append.mpr (Or.inl hm))
        · omega
        · exact htid (List.mem_append.mpr (Or.inr hm))
    · simp only [if_neg hstale, Option.some.injEq, Prod.mk.injEq] at h
      obtain ⟨ht, hs⟩ := h
      subst ht; subst hs
      constructor
      · exact Or.inl ⟨lu0, rest0, rfl, le_of_not_lt hstale⟩
      · intro tid lu rest heq hst
        simp only [List.cons.injEq, Prod.mk.injEq] at heq
        obtain ⟨⟨h1, h2⟩, h3⟩ := heq
        subst h2
        exact absurd hst hstale
  | [] =>
    rw [poolIds, hav] at nd lt
    simp only [acquire, hav] at h
    by_cases hcap : s.inUse.length < s.maxTabs
    · simp only [if_pos hcap, Option.some.injEq, Prod.mk.injEq] at h
      obtain ⟨ht, hs⟩ := h
      subst ht; subst hs
      constructor
      · refine Or.inr fun hm => ?_
        rw [poolIds, hav] at hm
        have := lt s.nextId hm
        omega
      · intro tid lu rest heq
        exact absurd heq (by simp)
    · simp [if_neg hcap] at h

/-- C8 (witness): a concrete pool whose free queue holds a session idle
for 5 time-units with a threshold of 10; `acquire` hands that session out
and the first disjunct of the conclusion holds for it. -/
theorem c8_witness :
    PoolInv { maxTabs := 1, maxIdleTime := 10, available := [(0, 0)], inUse := [], nextId := 1 } ∧
    acquire 5 { maxTabs := 1, maxIdleTime := 10, available := [(0, 0)], inUse := [], nextId := 1 }
      = some (0, { maxTabs := 1, maxIdleTime := 10, available := [], inUse := [0], nextId := 1 }) ∧
    (((∃ lu rest,
        (({ maxTabs := 1, maxIdleTime := 10, available := [(0, 0)], inUse := [], nextId := 1 } : PoolSt)).available
          = (0, lu) :: rest ∧ (5 : Rat) - lu ≤ (10 : Rat)) ∨
      (0 : Nat) ∉ poolIds { maxTabs := 1, maxIdleTime := 10, available := [(0, 0)], inUse := [], nextId := 1 }) ∧
     (∀ tid lu rest,
        (({ maxTabs := 1, maxIdleTime := 10, available := [(0, 0)], inUse := [], nextId := 1 } : PoolSt)).available
          = (tid, lu) :: rest → (10 : Rat) < (5 : Rat) - lu →
        (0 : Nat) = 1 ∧
        tid ∉ poolIds { maxTabs := 1, maxIdleTime := 10, available := [], inUse := [0], nextId := 1 })) := by
  have hacq : acquire 5 { maxTabs := 1, maxIdleTime := 10, available := [(0, 0)], inUse := [], nextId := 1 }
      = some (0, { maxTabs := 1, maxIdleTime := 10, available := [], inUse := [0], nextId := 1 }) := by
    norm_num [acquire, addSet]
  refine ⟨⟨by decide, by decide, by decide⟩, hacq, ?_⟩
  exact c8_no_stale_handout _ 5 0 _ ⟨by decide, by decide, by decide⟩ hacq

/-!
Embedding of `RateLimiter` from `app/utils/rate_limiter.py`.

State: `domain_last_request` (dict, domain to timestamp),
`client_requests` (defaultdict, client id to chronological deque of
timestamps) and `global_requests` (deque of maxlen 100).  Dicts are
association lists with first-match lookup and in-place assignment.
`asyncio.sleep` only delays the caller; its sole observable effect on the
limiter state is that the `time.time()` stored for the domain after the
gate-1 wait is the wake-up time, which the embedding computes directly.
`urlparse`-based `_get_domain` and the md5 digest of `_get_client_id` call
library code outside this repository and are passed as function
parameters. -/

/-- First-match lookup in an association list (Python dict access). -/
def lookupA {α : Type} : List (String × α) → String → Option α
  | [], _ => none
  | (k, v) :: rest, key => if k = key then some v else lookupA rest key

/-- Assignment in an association list (Python `d[key] = v`): replaces the
first binding of the key, or appends a new binding. -/
def setA {α : Type} : List (String × α) → String → α → List (String × α)
  | [], key, v => [(key, v)]
  | (k, w) :: rest, key, v =>
    if k = key then (key, v) :: rest else (k, w) :: setA rest key v

/-- Removal from an association list (Python `del d[key]`). -/
def eraseA {α : Type} : List (String × α) → String → List (String × α)
  | [], _ => []
  | (k, v) :: rest, key => if k = key then rest else (k, v) :: eraseA rest key

/-- Lookup in `client_requests`, a `defaultdict(deque)`: a missing client
reads as the empty deque. -/
def lookupD (m : List (String × List Rat)) (key : String) : List Rat :=
  (lookupA m key).getD []

/-- Rate limiter configuration: `rate_limit_enabled`, `rate_limit_delay`
and `rate_limit_per_minute` from settings. -/
structure RLSettings where
  enabled : Bool
  delay : Rat
  perMinute : Nat
  deriving DecidableEq, Repr

/-- Observable outcome of `check_rate_limit`: normal return, a raised
`RateLimitExceeded` carrying the computed wait time, or the `IndexError`
that `client_queue[0]` raises on an empty queue (reachable only when
`rate_limit_per_minute` is 0). -/
inductive RLOutcome where
  | permitted
  | rejected (retryAfter : Rat)
  | indexError
  deriving DecidableEq, Repr

/-- Mutable state of `RateLimiter`. -/
structure RLState where
  domainLast : List (String × Rat)
  clientReqs : List (String × List Rat)
  globalReqs : List Rat
  deriving DecidableEq, Repr

/-- Fresh `RateLimiter.__init__` state. -/
def initRLState : RLState := { domainLast := [], clientReqs := [], globalReqs := [] }

/-- Client descriptor (`client_info` dict with keys `ip`, `user_agent`,
absent keys reading as the empty string). -/
structure ClientInfo where
  ip : String
  userAgent : String
  deriving DecidableEq, Repr

/-- `RateLimiter._get_client_id`: `"default"` when no client info is given,
otherwise the first 8 characters of the hex digest (the md5 digest being
library code, it is the `digest` parameter) of `"ip:user_agent"`. -/
def getClientId (digest : String → String) : Option ClientInfo → String
  | none => "default"
  | some c => (digest (c.ip ++ ":" ++ c.userAgent)).take 8

/-- Append to the `global_requests` deque of `maxlen=100`: when full, the
oldest entry is dropped. -/
def pushRing (l : List Rat) (x : Rat) : List Rat :=
  if l.length < 100 then l ++ [x] else (l ++ [x]).drop 1

/-- `RateLimiter.check_rate_limit`, as a pure transformer of the limiter
state at call time `now`, returning the outcome and the new state.
Gate 1 (per-domain spacing) may sleep and then stores the wake-up time for
the domain — this happens before gate 2.  Gate 2 prunes the client's deque
in place (entries `< now - 60` popped from the front), then, if the pruned
length is at least `rate_limit_per_minute`, computes
`60 - (now - oldest) + 0.1` and raises when that is positive — state
mutated so far (domain stamp, pruned deque) persists, and nothing is
appended.  Otherwise `now` is appended to the client deque and to the
global ring; gate 3 only sleeps and changes no state. -/
def checkRateLimit (getDomain digest : String → String) (st : RLSettings)
    (s : RLState) (url : String) (ci : Option ClientInfo) (now : Rat) :
    RLOutcome × RLState :=
  if st.enabled = false then (.permitted, s)
  else
    let domain := getDomain url
    let clientId := getClientId digest ci
    let now1 : Rat :=
      match lookupA s.domainLast domain with
      | some last => if now - last < st.delay then last + st.delay else now
      | none => now
    let dlr := setA s.domainLast domain now1
    let q := (lookupD s.clientReqs clientId).dropWhile (fun t => decide (t < now - 60))
    let proceed : RLOutcome × RLState :=
      (.permitted,
        { domainLast := dlr,
          clientReqs := setA s.clientReqs clientId (q ++ [now]),
          globalReqs := pushRing s.globalReqs now })
    if st.perMinute ≤ q.length then
      match q with
      | [] =>
        (.indexError,
          { domainLast := dlr, clientReqs := setA s.clientReqs clientId q,
            globalReqs := s.globalReqs })
      | oldest :: _ =>
        if 0 < 60 - (now - oldest) + 1 / 10 then
          (.rejected (60 - (now - oldest) + 1 / 10),
            { domainLast := dlr, clientReqs := setA s.clientReqs clientId q,
              globalReqs := s.globalReqs })
        else proceed
    else proceed

lemma lookupA_setA_self {α : Type} (m : List (String × α)) (k : String) (v : α) :
    lookupA (setA m k v) k = some v := by
  induction m with
  | nil => simp [setA, lookupA]
  | cons e rest ih =>
    obtain ⟨k1, v1⟩ := e
    by_cases hk : k1 = k
    · simp [setA, hk, lookupA]
    · simp [setA, hk, lookupA, ih]

lemma dropWhile_head_not {α : Type} (p : α → Bool) :
    ∀ (l : List α) (a : α) (t : List α), l.dropWhile p = a :: t → p a = false := by
  intro l
  induction l with
  | nil => intro a t h; simp [List.dropWhile] at h
  | cons x xs ih =>
    intro a t h
    rw [List.dropWhile_cons] at h
    by_cases hx : p x = true
    · rw [if_pos hx] at h
      exact ih a t h
    · rw [if_neg hx] at h
      obtain ⟨h1, -⟩ := List.cons_eq_cons.mp h
      subst h1
      exact Bool.eq_false_iff.mpr hx

lemma dropWhile_cons_self {α : Type} {p : α → Bool} {a : α} {l : List α}
    (h : p a = false) : (a :: l).dropWhile p = a :: l := by
  rw [List.dropWhile_cons, if_neg]
  simp [h]

lemma dropWhile_replicate {p : Rat → Bool} {a : Rat} (h : p a = false) (n : Nat) :
    (List.replicate n a).dropWhile p = List.replicate n a := by
  cases n with
  | zero => rfl
  | succ m =>
    rw [List.replicate_succ]
    exact dropWhile_cons_self h

lemma check_permit (getDomain digest : String → String) (st : RLSettings)
    (s : RLState) (url : String) (ci : Option ClientInfo) (now : Rat)
    (hen : st.enabled = true)
    (hlt : ((lookupD s.clientReqs (getClientId digest ci)).dropWhile
        (fun t => decide (t < now - 60))).length < st.perMinute) :
    (checkRateLimit getDomain digest st s url ci now).1 = .permitted ∧
    (checkRateLimit getDomain digest st s url ci now).2.clientReqs
      = setA s.clientReqs (getClientId digest ci)
          (((lookupD s.clientReqs (getClientId digest ci)).dropWhile
              (fun t => decide (t < now - 60))) ++ [now]) := by
  simp only [checkRateLimit, hen, Bool.true_eq_false, if_false]
  rw [if_neg (not_le.mpr hlt)]
  exact ⟨rfl, rfl⟩

lemma check_reject (getDomain digest : String → String) (st : RLSettings)
    (s : RLState) (url : String) (ci : Option ClientInfo) (now oldest : Rat)
    (rest : List Rat) (hen : st.enabled = true)
    (hq : (lookupD s.clientReqs (getClientId digest ci)).dropWhile
        (fun t => decide (t < now - 60)) = oldest :: rest)
    (hge : st.perMinute ≤ (oldest :: rest).length) :
    (checkRateLimit getDomain digest st s url ci now).1
      = .rejected (60 - (now - oldest) + 1 / 10) ∧
    0 < 60 - (now - oldest) + 1 / 10 ∧
    (checkRateLimit getDomain digest st s url ci now).2
      = { domainLast := setA s.domainLast (getDomain url)
            (match lookupA s.domainLast (getDomain url) with
             | some last => if now - last < st.delay then last + st.delay else now
             | none => now),
          clientReqs := setA s.clientReqs (getClientId digest ci) (oldest :: rest),
          globalReqs := s.globalReqs } := by
  have hpos : 0 < 60 - (now - oldest) + 1 / 10 := by
    have h0 : decide (oldest < now - 60) = false :=
      dropWhile_head_not (fun t => decide (t < now - 60)) _ _ _ hq
    have h1 : now - 60 ≤ oldest := le_of_not_lt (of_decide_eq_false h0)
    linarith
  simp only [checkRateLimit, hen, Bool.true_eq_false, if_false]
  rw [hq, if_pos hge]
  dsimp only
  rw [if_pos hpos]
  exact ⟨rfl, hpos, rfl⟩

lemma check_empty (getDomain digest : String → String) (st : RLSettings)
    (s : RLState) (url : String) (ci : Option ClientInfo) (now : Rat)
    (hen : st.enabled = true)
    (hq : (lookupD s.clientReqs (getClientId digest ci)).dropWhile
        (fun t => decide (t < now - 60)) = []) :
    (checkRateLimit getDomain digest st s url ci now).1 = .indexError ∨
    (checkRateLimit getDomain digest st s url ci now).1 = .permitted := by
  simp only [checkRateLimit, hen, Bool.true_eq_false, if_false]
  rw [hq]
  by_cases hge : st.perMinute ≤ ([] : List Rat).length
  · rw [if_pos hge]
    exact Or.inl rfl
  · rw [if_neg hge]
    exact Or.inr rfl

lemma check_reject_inv (getDomain digest : String → String) (st : RLSettings)
    (s : RLState) (url : String) (ci : Option ClientInfo) (now r : Rat)
    (hen : st.enabled = true)
    (h : (checkRateLimit getDomain digest st s url ci now).1 = .rejected r) :
    ∃ oldest rest,
      (lookupD s.clientReqs (getClientId digest ci)).dropWhile
          (fun t => decide (t < now - 60)) = oldest :: rest ∧
      st.perMinute ≤ (oldest :: rest).length ∧
      r = 60 - (now - oldest) + 1 / 10 := by
  rcases hq : (lookupD s.clientReqs (getClientId digest ci)).dropWhile
      (fun t => decide (t < now - 60)) with _ | ⟨oldest, rest⟩
  · rcases check_empty getDomain digest st s url ci now hen hq with he | he <;>
      · rw [he] at h; exact absurd h (by simp)
  · by_cases hge : st.perMinute ≤ (oldest :: rest).length
    · refine ⟨oldest, rest, rfl, hge, ?_⟩
      have hr := (check_reject getDomain digest st s url ci now oldest rest hen hq hge).1
      rw [hr] at h
      exact (RLOutcome.rejected.injEq _ _ ▸ h).symm
    · have hp := (check_permit getDomain digest st s url ci now hen
        (by rw [hq]; omega)).1
      rw [hp] at h
      exact absurd h (by simp)

/-- Concrete limiter settings used by witnesses: enabled, no per-domain
delay, one request per minute. -/
def wSettings : RLSettings := { enabled := true, delay := 0, perMinute := 1 }

/-- Concrete limiter state used by the C5 witness: one request 5 time-units
old in the shared default window. -/
def wStateC5 : RLState :=
  { domainLast := [], clientReqs := [("default", [5])], globalReqs := [] }

/-- Concrete limiter state used for C2: destination `"d"` last requested at
time 0, default client window at capacity with one entry at time 50. -/
def wStateC2 : RLState :=
  { domainLast := [("d", 0)], clientReqs := [("default", [50])], globalReqs := [] }

/-- C5 (confirmed): with a per-client limit of `N = rate_limit_per_minute ≥ 1`
requests per minute, a `check_rate_limit` call whose pruned client window
(entries older than 60 time-units dropped from the front) still holds at
least `N` entries is rejected with a `RateLimitExceeded` carrying a
strictly positive retry time, and a call whose pruned window holds fewer
than `N` entries is permitted — so the (N+1)th call within 60 time-units
is rejected, and a call made after the window has slid past the oldest
entry is permitted again. -/
theorem c5_per_client_limit (getDomain digest : String → String)
    (st : RLSettings) (s : RLState) (url : String) (ci : Option ClientInfo)
    (now : Rat) (hen : st.enabled = true) (hN : 1 ≤ st.perMinute) :
    (st.perMinute ≤ ((lookupD s.clientReqs (getClientId digest ci)).dropWhile
        (fun t => decide (t < now - 60))).length →
      ∃ r, (checkRateLimit getDomain digest st s url ci now).1 = .rejected r ∧
        0 < r) ∧
    (((lookupD s.clientReqs (getClientId digest ci)).dropWhile
        (fun t => decide (t < now - 60))).length < st.perMinute →
      (checkRateLimit getDomain digest st s url ci now).1 = .permitted) := by
  constructor
  · intro hge
    rcases hq : (lookupD s.clientReqs (getClientId digest ci)).dropWhile
        (fun t => decide (t < now - 60)) with _ | ⟨oldest, rest⟩
    · rw [hq] at hge
      simp at hge
      omega
    · rw [hq] at hge
      obtain ⟨h1, h2, -⟩ :=
        check_reject getDomain digest st s url ci now oldest rest hen hq hge
      exact ⟨_, h1, h2⟩
  · intro hlt
    exact (check_permit getDomain digest st s url ci now hen hlt).1

/-- C5 (witness): limit 1 per minute, a client window holding one request
5 time-units old: the pruned window is at capacity and the call is
rejected with positive retry time. -/
theorem c5_witness :
    wSettings.enabled = true ∧
    1 ≤ wSettings.perMinute ∧
    ((wSettings.perMinute ≤
        ((lookupD wStateC5.clientReqs (getClientId id none)).dropWhile
          (fun t => decide (t < (10 : Rat) - 60))).length →
      ∃ r, (checkRateLimit id id wSettings wStateC5 "u" none 10).1
          = .rejected r ∧ 0 < r) ∧
     (((lookupD wStateC5.clientReqs (getClientId id none)).dropWhile
          (fun t => decide (t < (10 : Rat) - 60))).length < wSettings.perMinute →
      (checkRateLimit id id wSettings wStateC5 "u" none 10).1 = .permitted)) :=
  ⟨rfl, by decide,
    c5_per_client_limit id id wSettings wStateC5 "u" none 10 rfl (by decide)⟩

/-- The limiter state after `n` `check_rate_limit` calls at time 0 with no
client info (anonymous callers) against a fresh limiter. -/
def runAnon (getDomain digest : String → String) (st : RLSettings)
    (u : String) : Nat → RLState
  | 0 => initRLState
  | n + 1 =>
    (checkRateLimit getDomain digest st (runAnon getDomain digest st u n)
      u none 0).2

lemma runAnon_queue (getDomain digest : String → String) (st : RLSettings)
    (u : String) (hen : st.enabled = true) :
    ∀ k, k ≤ st.perMinute →
      lookupD (runAnon getDomain digest st u k).clientReqs "default"
        = List.replicate k 0 := by
  intro k
  induction k with
  | zero => intro _; simp [runAnon, initRLState, lookupD, lookupA]
  | succ n ih =>
    intro hk
    have hq := ih (by omega)
    have hdrop : (List.replicate n (0 : Rat)).dropWhile
        (fun t => decide (t < (0 : Rat) - 60)) = List.replicate n 0 :=
      dropWhile_replicate (decide_eq_false (by norm_num)) n
    have hperm := check_permit getDomain digest st
      (runAnon getDomain digest st u n) u none 0 hen (by
        show ((lookupD _ (getClientId digest none)).dropWhile _).length < _
        rw [show getClientId digest none = "default" from rfl, hq, hdrop,
          List.length_replicate]
        omega)
    show lookupD (checkRateLimit getDomain digest st
      (runAnon getDomain digest st u n) u none 0).2.clientReqs "default" = _
    rw [hperm.2, show getClientId digest none = "default" from rfl] at *
    rw [lookupD, lookupA_setA_self, hq, hdrop]
    simp [List.replicate_succ']

/-- C10 (confirmed): every `check_rate_limit` call made without
client-identifying information resolves to the constant client id
`"default"`, so all anonymous callers draw down one shared per-client
budget: against a fresh limiter with limit `N ≥ 1` per minute, `N`
anonymous calls at time 0 are all permitted and the (N+1)th anonymous
call — regardless of which caller makes it — is rejected with retry time
60.1. -/
theorem c10_shared_default_budget (getDomain digest : String → String)
    (st : RLSettings) (u : String) (hen : st.enabled = true)
    (hN : 1 ≤ st.perMinute) :
    getClientId digest none = "default" ∧
    (∀ k, k < st.perMinute →
      (checkRateLimit getDomain digest st (runAnon getDomain digest st u k)
        u none 0).1 = .permitted) ∧
    (checkRateLimit getDomain digest st
        (runAnon getDomain digest st u st.perMinute) u none 0).1
      = .rejected (60 + 1 / 10) := by
  refine ⟨rfl, ?_, ?_⟩
  · intro k hk
    have hq := runAnon_queue getDomain digest st u hen k (le_of_lt hk)
    refine (check_permit getDomain digest st _ u none 0 hen ?_).1
    show ((lookupD _ (getClientId digest none)).dropWhile _).length < _
    rw [show getClientId digest none = "default" from rfl, hq,
      dropWhile_replicate (decide_eq_false (by norm_num)) k,
      List.length_replicate]
    omega
  · have hq := runAnon_queue getDomain digest st u hen st.perMinute le_rfl
    obtain ⟨m, hm⟩ : ∃ m, st.perMinute = m + 1 := ⟨st.perMinute - 1, by omega⟩
    have hq' : (lookupD (runAnon getDomain digest st u st.perMinute).clientReqs
        (getClientId digest none)).dropWhile
          (fun t => decide (t < (0 : Rat) - 60)) = 0 :: List.replicate m 0 := by
      rw [show getClientId digest none = "default" from rfl, hq,
        dropWhile_replicate (decide_eq_false (by norm_num)) st.perMinute, hm,
        List.replicate_succ]
    have hr := check_reject getDomain digest st
      (runAnon getDomain digest st u st.perMinute) u none 0 0
      (List.replicate m 0) hen hq' (by simp [List.length_replicate]; omega)
    rw [hr.1]
    norm_num

/-- C10 (witness): with limit 1 per minute, the first anonymous call is
permitted and the second anonymous call is rejected with retry time 60.1,
both resolving to the shared `"default"` client. -/
theorem c10_witness :
    wSettings.enabled = true ∧
    1 ≤ wSettings.perMinute ∧
    (getClientId id none = "default" ∧
     (∀ k, k < wSettings.perMinute →
       (checkRateLimit id id wSettings (runAnon id id wSettings "u" k)
         "u" none 0).1 = .permitted) ∧
     (checkRateLimit id id wSettings
        (runAnon id id wSettings "u" wSettings.perMinute) "u" none 0).1
       = .rejected (60 + 1 / 10)) :=
  ⟨rfl, by decide,
    c10_shared_default_budget id id wSettings "u" rfl (by decide)⟩

/-- C2 (amended): a `check_rate_limit` call rejected by the per-client gate
does not append to the client's window (the rejected attempt consumes no
budget; the window only loses entries already older than 60 time-units,
pruned before counting) and does not touch the global ring, and repeating
the rejected call on the post-rejection state at the same instant yields
the same `retry_after`; however the per-destination last-request timestamp
IS advanced by the rejected call, because gate 1 stores it before gate 2
runs (this is the part in which the claim as stated fails; see the
counterexample). -/
theorem c2_rejected_call_state (getDomain digest : String → String)
    (st : RLSettings) (s : RLState) (url : String) (ci : Option ClientInfo)
    (now r : Rat) (hen : st.enabled = true)
    (h : (checkRateLimit getDomain digest st s url ci now).1 = .rejected r) :
    (checkRateLimit getDomain digest st s url ci now).2.clientReqs
      = setA s.clientReqs (getClientId digest ci)
          ((lookupD s.clientReqs (getClientId digest ci)).dropWhile
            (fun t => decide (t < now - 60))) ∧
    (checkRateLimit getDomain digest st s url ci now).2.globalReqs
      = s.globalReqs ∧
    (checkRateLimit getDomain digest st s url ci now).2.domainLast
      = setA s.domainLast (getDomain url)
          (match lookupA s.domainLast (getDomain url) with
           | some last => if now - last < st.delay then last + st.delay else now
           | none => now) ∧
    (checkRateLimit getDomain digest st
        (checkRateLimit getDomain digest st s url ci now).2 url ci now).1
      = .rejected r := by
  obtain ⟨oldest, rest, hq, hge, hr⟩ :=
    check_reject_inv getDomain digest st s url ci now r hen h
  have hrej := check_reject getDomain digest st s url ci now oldest rest hen hq hge
  refine ⟨?_, ?_, ?_, ?_⟩
  · rw [hrej.2.2, hq]
  · rw [hrej.2.2]
  · rw [hrej.2.2]
  · have hq2 : (lookupD (checkRateLimit getDomain digest st s url ci now).2.clientReqs
        (getClientId digest ci)).dropWhile (fun t => decide (t < now - 60))
          = oldest :: rest := by
      rw [hrej.2.2]
      show (lookupD (setA s.clientReqs (getClientId digest ci) (oldest :: rest))
        (getClientId digest ci)).dropWhile _ = _
      rw [lookupD, lookupA_setA_self]
      exact dropWhile_cons_self (dropWhile_head_not (fun t => decide (t < now - 60)) _ _ _ hq)
    have hrej2 := check_reject getDomain digest st
      (checkRateLimit getDomain digest st s url ci now).2 url ci now oldest rest
      hen hq2 hge
    rw [hrej2.1, hr]

/-- C2 (counterexample): destination `"d"` last requested at time 0, client
window at capacity; the call at time 50 is rejected by the per-client
gate, yet the per-destination last-request timestamp has been advanced
from 0 to 50 by the rejected call, contradicting the claim that a
rejection leaves it unchanged. -/
theorem c2_counterexample :
    (checkRateLimit id id wSettings wStateC2 "d" none 50).1
      = .rejected (60 - ((50 : Rat) - 50) + 1 / 10) ∧
    lookupA (checkRateLimit id id wSettings wStateC2 "d" none 50).2.domainLast "d"
      = some 50 ∧
    lookupA wStateC2.domainLast "d" = some 0 := by
  have hq : (lookupD wStateC2.clientReqs (getClientId id none)).dropWhile
      (fun t => decide (t < (50 : Rat) - 60)) = [(50 : Rat)] := by
    show ([(50 : Rat)]).dropWhile _ = [(50 : Rat)]
    exact dropWhile_cons_self (decide_eq_false (by norm_num))
  have hr := check_reject id id wSettings wStateC2 "d" none 50 50 [] rfl hq
    (by decide)
  refine ⟨hr.1, ?_, by decide⟩
  rw [hr.2.2]
  show lookupA (setA wStateC2.domainLast "d"
    (if (50 : Rat) - 0 < wSettings.delay then 0 + wSettings.delay else 50)) "d"
      = some 50
  rw [if_neg (by norm_num [wSettings])]
  decide

/-- C2 (witness): the amended theorem applied to the counterexample state:
the rejected call at time 50 leaves the client window and the global ring
as described, advances the domain stamp, and a repeated call is rejected
with the same retry time. -/
theorem c2_witness :
    wSettings.enabled = true ∧
    (checkRateLimit id id wSettings wStateC2 "d" none 50).1
      = .rejected (60 - ((50 : Rat) - 50) + 1 / 10) ∧
    ((checkRateLimit id id wSettings wStateC2 "d" none 50).2.clientReqs
      = setA wStateC2.clientReqs (getClientId id none)
          ((lookupD wStateC2.clientReqs (getClientId id none)).dropWhile
            (fun t => decide (t < (50 : Rat) - 60))) ∧
     (checkRateLimit id id wSettings wStateC2 "d" none 50).2.globalReqs
      = wStateC2.globalReqs ∧
     (checkRateLimit id id wSettings wStateC2 "d" none 50).2.domainLast
      = setA wStateC2.domainLast "d"
          (match lookupA wStateC2.domainLast "d" with
           | some last =>
             if (50 : Rat) - last < wSettings.delay then last + wSettings.delay
             else 50
           | none => 50) ∧
     (checkRateLimit id id wSettings
        (checkRateLimit id id wSettings wStateC2 "d" none 50).2 "d" none 50).1
      = .rejected (60 - ((50 : Rat) - 50) + 1 / 10)) := by
  have hq : (lookupD wStateC2.clientReqs (getClientId id none)).dropWhile
      (fun t => decide (t < (50 : Rat) - 60)) = [(50 : Rat)] := by
    show ([(50 : Rat)]).dropWhile _ = [(50 : Rat)]
    exact dropWhile_cons_self (decide_eq_false (by norm_num))
  have hrej := (check_reject id id wSettings wStateC2 "d" none 50 50 [] rfl hq
    (by decide)).1
  exact ⟨rfl, hrej,
    c2_rejected_call_state id id wSettings wStateC2 "d" none 50 _ rfl hrej⟩

/-!
Embedding of `CacheManager` from `app/utils/cache.py`, for the deployment
the local-tier claims address: `settings.redis_url` unset, so
`redis_client` is `None` and every `get`/`set`/`clear_pattern` acts on the
in-process `memory_cache` only (the Redis branches are guarded by
`if self.redis_client`).  `memory_cache` maps a key to the pair
`(value, timestamp)` stored by `set`. -/

/-- Cache configuration: `cache_ttl` from settings. -/
structure CacheSettings where
  cacheTtl : Rat
  deriving DecidableEq, Repr

/-- The in-process tier `memory_cache`: key to (value, insertion time). -/
abbrev Mem (α : Type) := List (String × (α × Rat))

/-- `CacheManager.get` on the memory tier: a hit younger than
`settings.cache_ttl` returns the value; an older hit deletes the entry and
returns absent; a miss returns absent. -/
def cacheGet {α : Type} (st : CacheSettings) (m : Mem α) (key : String)
    (now : Rat) : Option α × Mem α :=
  match lookupA m key with
  | some (v, ts) =>
    if now - ts < st.cacheTtl then (some v, m) else (none, eraseA m key)
  | none => (none, m)

/-- `CacheManager.set` on the memory tier: stores `(value, time.time())`.
The source computes `ttl = ttl or self.settings.cache_ttl`, but uses it
only for the external tier's `setex`; the local tier stores no per-entry
ttl. -/
def cacheSet {α : Type} (st : CacheSettings) (m : Mem α) (key : String)
    (v : α) (ttl : Option Rat) (now : Rat) : Mem α :=
  setA m key (v, now)

/-- `pattern.replace('*', '')` from `CacheManager.clear_pattern`. -/
def stripStars (p : String) : String :=
  String.mk (p.toList.filter (fun c => c ≠ '*'))

/-- Python's substring containment `needle in hay` on char lists. -/
def isSubList : List Char → List Char → Bool
  | needle, [] => needle.isEmpty
  | needle, h :: t => needle.isPrefixOf (h :: t) || isSubList needle t

/-- Python's substring containment `needle in hay` on strings. -/
def containsSub (needle hay : String) : Bool :=
  isSubList needle.toList hay.toList

/-- `CacheManager.clear_pattern` on the memory tier: deletes exactly the
keys that contain the star-stripped pattern as a substring
(`pattern.replace('*', '') in k`). -/
def clearPattern {α : Type} (m : Mem α) (p : String) : Mem α :=
  m.filter (fun e => !(containsSub (stripStars p) e.1))

/-- Glob matching with `*` wildcards, following the spec's words for
`invalidate_prefix` ("entries whose key matches a prefix/glob pattern");
used only to state what the claim asserts, to be compared with
`clearPattern` above, which is what the source does. -/
def globMatch : List Char → List Char → Bool
  | [], ks => ks.isEmpty
  | '*' :: ps, ks => ks.tails.any (fun suf => globMatch ps suf)
  | p :: ps, [] => false
  | p :: ps, k :: ks => p == k && globMatch ps ks

/-- Glob matching on strings (spec-side definition, see `globMatch`). -/
def globStr (p k : String) : Bool := globMatch p.toList k.toList

lemma lookupA_eq_none_iff {α : Type} (m : List (String × α)) (k : String) :
    lookupA m k = none ↔ k ∉ m.map Prod.fst := by
  induction m with
  | nil => simp [lookupA]
  | cons e rest ih =>
    obtain ⟨k1, v1⟩ := e
    by_cases hk : k1 = k
    · subst hk; simp [lookupA]
    · simp [lookupA, hk, ih, Ne.symm hk]

lemma setA_map_fst {α : Type} (m : List (String × α)) (k : String) (v : α) :
    (setA m k v).map Prod.fst
      = if k ∈ m.map Prod.fst then m.map Prod.fst else m.map Prod.fst ++ [k] := by
  induction m with
  | nil => simp [setA]
  | cons e rest ih =>
    obtain ⟨k1, v1⟩ := e
    by_cases hk : k1 = k
    · subst hk; simp [setA]
    · simp only [setA, if_neg hk, List.map_cons, ih, List.mem_cons]
      by_cases hmem : k ∈ rest.map Prod.fst
      · simp [hmem, Ne.symm hk]
      · simp [hmem, Ne.symm hk]

lemma nodup_setA {α : Type} (m : List (String × α)) (k : String) (v : α)
    (h : (m.map Prod.fst).Nodup) : ((setA m k v).map Prod.fst).Nodup := by
  rw [setA_map_fst]
  by_cases hmem : k ∈ m.map Prod.fst
  · rwa [if_pos hmem]
  · rw [if_neg hmem]
    refine List.Nodup.append h (List.nodup_singleton k) ?_
    intro a ha hb
    simp only [List.mem_singleton] at hb
    subst hb
    exact hmem ha

lemma lookupA_eraseA_self {α : Type} (m : List (String × α)) (k : String)
    (h : (m.map Prod.fst).Nodup) : lookupA (eraseA m k) k = none := by
  induction m with
  | nil => simp [eraseA, lookupA]
  | cons e rest ih =>
    obtain ⟨k1, v1⟩ := e
    simp only [List.map_cons, List.nodup_cons] at h
    by_cases hk : k1 = k
    · subst hk
      rw [eraseA, if_pos rfl]
      exact (lookupA_eq_none_iff rest k1).mpr h.1
    · rw [eraseA, if_neg hk, lookupA, if_neg hk]
      exact ih h.2

lemma lookupA_filter {α : Type} (P : String → Bool) (m : List (String × α))
    (k : String) :
    lookupA (m.filter (fun e => !(P e.1))) k
      = if P k = true then none else lookupA m k := by
  induction m with
  | nil => simp [lookupA]
  | cons e rest ih =>
    obtain ⟨k1, v1⟩ := e
    by_cases hP : P k1 = true
    · by_cases hk : k1 = k
      · subst hk
        simp [List.filter, hP, lookupA, ih]
      · simp [List.filter, hP, lookupA, hk, ih]
    · by_cases hk : k1 = k
      · subst hk
        simp [List.filter, hP, lookupA, Bool.eq_false_iff.mpr hP]
      · simp [List.filter, hP, lookupA, hk, ih]

/-- C4 (amended): in the local tier, an entry written by `set` expires after
the configured default TTL (`settings.cache_ttl`) regardless of the
explicit `ttl` argument, which only governs the external tier: a `get`
before the default TTL has elapsed returns the value, and a `get` after it
has elapsed returns absent and removes the entry from the local tier. -/
theorem c4_local_ttl {α : Type} (st : CacheSettings) (m : Mem α) (k : String)
    (v : α) (ttl : Option Rat) (now now' : Rat)
    (hnd : (m.map Prod.fst).Nodup) :
    (now' - now < st.cacheTtl →
      cacheGet st (cacheSet st m k v ttl now) k now'
        = (some v, cacheSet st m k v ttl now)) ∧
    (st.cacheTtl ≤ now' - now →
      (cacheGet st (cacheSet st m k v ttl now) k now').1 = none ∧
      lookupA (cacheGet st (cacheSet st m k v ttl now) k now').2 k = none) := by
  have hl : lookupA (cacheSet st m k v ttl now) k = some (v, now) :=
    lookupA_setA_self m k (v, now)
  constructor
  · intro hfresh
    unfold cacheGet
    rw [hl]
    dsimp only
    rw [if_pos hfresh]
  · intro hexp
    unfold cacheGet
    rw [hl]
    dsimp only
    rw [if_neg (not_lt.mpr hexp)]
    exact ⟨rfl, lookupA_eraseA_self _ k (nodup_setA m k (v, now) hnd)⟩

/-- C4 (counterexample): default TTL 100; `set(k, 7, ttl=1)` at time 0
followed by `get(k)` at time 50 — long after the explicit ttl of 1 has
elapsed — still returns 7 from the local tier, because the local tier
checks only `settings.cache_ttl`; the claim that the explicit ttl governs
is false. -/
theorem c4_counterexample :
    (1 : Rat) < 50 - 0 ∧
    (cacheGet { cacheTtl := 100 }
      (cacheSet { cacheTtl := 100 } ([] : Mem Nat) "k" 7 (some 1) 0) "k" 50).1
      = some 7 := by
  constructor
  · norm_num
  · show (cacheGet { cacheTtl := 100 } (setA [] "k" ((7 : Nat), 0)) "k" 50).1
      = some 7
    unfold cacheGet
    rw [lookupA_setA_self]
    dsimp only
    rw [if_pos (by norm_num)]

/-- C4 (witness): the amended theorem at default TTL 100, an empty cache,
an explicit ttl of 1, set at time 0 and read at time 50. -/
theorem c4_witness :
    (([] : Mem Nat).map Prod.fst).Nodup ∧
    (((50 : Rat) - 0 < ({ cacheTtl := 100 } : CacheSettings).cacheTtl →
      cacheGet { cacheTtl := 100 }
          (cacheSet { cacheTtl := 100 } ([] : Mem Nat) "k" 7 (some 1) 0) "k" 50
        = (some 7, cacheSet { cacheTtl := 100 } ([] : Mem Nat) "k" 7 (some 1) 0)) ∧
     (({ cacheTtl := 100 } : CacheSettings).cacheTtl ≤ (50 : Rat) - 0 →
      (cacheGet { cacheTtl := 100 }
          (cacheSet { cacheTtl := 100 } ([] : Mem Nat) "k" 7 (some 1) 0) "k" 50).1
        = none ∧
      lookupA (cacheGet { cacheTtl := 100 }
          (cacheSet { cacheTtl := 100 } ([] : Mem Nat) "k" 7 (some 1) 0) "k" 50).2
        "k" = none)) :=
  ⟨by decide, c4_local_ttl { cacheTtl := 100 } [] "k" 7 (some 1) 0 50 (by decide)⟩

/-- C9 (amended): `clear_pattern(p)` removes from the local tier exactly
the entries whose key contains the star-stripped pattern as a substring —
not the keys matching `p` as a prefix/glob pattern: after the call, a key
is absent if and only if it contains `stripStars p`, and all other entries
are untouched. -/
theorem c9_clear_pattern {α : Type} (p : String) (m : Mem α) (k : String) :
    lookupA (clearPattern m p) k
      = if containsSub (stripStars p) k = true then none else lookupA m k := by
  unfold clearPattern
  exact lookupA_filter (fun s => containsSub (stripStars p) s) m k

/-- C9 (counterexample): pattern `"foo*"` does not glob-match the key
`"xfoo"`, yet `clear_pattern` deletes it (substring over-approximation);
pattern `"a*b"` glob-matches the key `"aXb"`, yet `clear_pattern` keeps it
(star-stripping breaks interior wildcards).  Both directions of the claim
("exactly the entries whose key matches p") fail. -/
theorem c9_counterexample :
    (globStr "foo*" "xfoo" = false ∧
      clearPattern ([("xfoo", (0, 0))] : Mem Nat) "foo*" = []) ∧
    (globStr "a*b" "aXb" = true ∧
      clearPattern ([("aXb", (0, 0))] : Mem Nat) "a*b" = [("aXb", (0, 0))]) := by
  refine ⟨⟨?_, ?_⟩, ⟨?_, ?_⟩⟩ <;> decide

/-!
Embedding of the storage-sanitization part of `TabPool.release`: the tab's
browser-side storage, and the two `tab.evaluate` calls —
`window.localStorage.clear()` and `window.sessionStorage.clear()` — that
`release` wraps in `try: ... except: pass`.  Whether the scripts can run
(the tab may be closed or invalid) is the `scriptOk` flag; nothing in
`release` touches cookies, and a failure is swallowed without logging. -/

/-- Browser-side storage state of one tab. -/
structure TabData where
  cookies : List String
  localStorage : List String
  sessionStorage : List String
  deriving DecidableEq, Repr

/-- Effect on a tab of the two `evaluate` calls in `release` under
`try/except: pass`: when the scripts run, local and session storage are
cleared (cookies are not touched by any script `release` runs); when they
fail, the exception is swallowed and nothing changes. -/
def clearTabStorage (scriptOk : Bool) (d : TabData) : TabData :=
  if scriptOk then { d with localStorage := [], sessionStorage := [] } else d

/-- `TabPool.release` including its storage effect: the pool-state part is
`release`, and the released tab's storage is transformed by
`clearTabStorage`; the tab is enqueued into the free queue afterwards in
both the success and the failure case. -/
def releaseFull (now : Rat) (tid : Nat) (scriptOk : Bool) (s : PoolSt)
    (store : List (Nat × TabData)) : PoolSt × List (Nat × TabData) :=
  (release now tid s,
   store.map (fun e => if e.1 = tid then (e.1, clearTabStorage scriptOk e.2) else e))

/-- C7 (amended): `release` clears the released tab's local storage and
session storage when the clearing scripts succeed — cookies are never
cleared — and when clearing fails the failure is silently swallowed
(`except: pass`, without logging) and the tab is left unchanged; in both
cases the tab is still appended to the free queue, never dropped. -/
theorem c7_release_sanitize (now : Rat) (tid : Nat) (ok : Bool) (s : PoolSt)
    (store : List (Nat × TabData)) (d : TabData) (h : (tid, d) ∈ store) :
    (releaseFull now tid ok s store).1.available = s.available ++ [(tid, now)] ∧
    (tid, clearTabStorage ok d) ∈ (releaseFull now tid ok s store).2 ∧
    (clearTabStorage ok d).cookies = d.cookies ∧
    (ok = true → (clearTabStorage ok d).localStorage = [] ∧
      (clearTabStorage ok d).sessionStorage = []) ∧
    (ok = false → clearTabStorage ok d = d) := by
  refine ⟨rfl, ?_, ?_, ?_, ?_⟩
  · refine List.mem_map.mpr ⟨(tid, d), h, ?_⟩
    simp
  · cases ok <;> simp [clearTabStorage]
  · intro hok; subst hok; simp [clearTabStorage]
  · intro hok; subst hok; simp [clearTabStorage]

/-- C7 (counterexample): a leased tab holding the cookie `"sid"`; release
with the clearing scripts succeeding clears local and session storage but
the cookie survives into the free queue, contradicting the claim that
release clears cookies. -/
theorem c7_counterexample :
    (releaseFull 0 0 true
        { maxTabs := 2, maxIdleTime := 300, available := [], inUse := [0], nextId := 1 }
        [(0, { cookies := ["sid"], localStorage := ["a"], sessionStorage := ["b"] })]).2
      = [(0, { cookies := ["sid"], localStorage := [], sessionStorage := [] })] ∧
    (["sid"] : List String) ≠ [] := by
  exact ⟨by decide, by decide⟩

/-- C7 (witness): the amended theorem at the counterexample's tab: the
released tab is enqueued, its storage image is in the post-state store,
cookies are preserved, and both script outcomes behave as described. -/
theorem c7_witness :
    ((0 : Nat), ({ cookies := ["sid"], localStorage := ["a"], sessionStorage := ["b"] } : TabData)) ∈
      [((0 : Nat), ({ cookies := ["sid"], localStorage := ["a"], sessionStorage := ["b"] } : TabData))] ∧
    ((releaseFull 0 0 true
        { maxTabs := 2, maxIdleTime := 300, available := [], inUse := [0], nextId := 1 }
        [(0, { cookies := ["sid"], localStorage := ["a"], sessionStorage := ["b"] })]).1.available
      = ({ maxTabs := 2, maxIdleTime := 300, available := [], inUse := [0], nextId := 1 } : PoolSt).available
          ++ [(0, 0)] ∧
     ((0 : Nat), clearTabStorage true { cookies := ["sid"], localStorage := ["a"], sessionStorage := ["b"] }) ∈
      (releaseFull 0 0 true
        { maxTabs := 2, maxIdleTime := 300, available := [], inUse := [0], nextId := 1 }
        [(0, { cookies := ["sid"], localStorage := ["a"], sessionStorage := ["b"] })]).2 ∧
     (clearTabStorage true { cookies := ["sid"], localStorage := ["a"], sessionStorage := ["b"] }).cookies
      = ({ cookies := ["sid"], localStorage := ["a"], sessionStorage := ["b"] } : TabData).cookies ∧
     (true = true → (clearTabStorage true { cookies := ["sid"], localStorage := ["a"], sessionStorage := ["b"] }).localStorage = [] ∧
       (clearTabStorage true { cookies := ["sid"], localStorage := ["a"], sessionStorage := ["b"] }).sessionStorage = []) ∧
     (true = false → clearTabStorage true { cookies := ["sid"], localStorage := ["a"], sessionStorage := ["b"] }
       = { cookies := ["sid"], localStorage := ["a"], sessionStorage := ["b"] })) :=
  ⟨by decide, c7_release_sanitize 0 0 true
    { maxTabs := 2, maxIdleTime := 300, available := [], inUse := [0], nextId := 1 }
    [(0, { cookies := ["sid"], localStorage := ["a"], sessionStorage := ["b"] })]
    { cookies := ["sid"], localStorage := ["a"], sessionStorage := ["b"] } (by decide)⟩

/-!
Task-level model of `TabPool.acquire`/`TabPool.release` for the
at-capacity scenario, refining the atomic model above to the `asyncio`
interleaving of tasks around `self.lock` and `available_tabs`.  Each task
runs the source's control flow: an acquirer awaits the lock
(`async with self.lock`), then tries the queue (`wait_for(..., 0.1)`,
which times out deterministically when the queue is empty, since nothing
can refill it while the acquirer holds the lock), then either creates a
tab when under `max_tabs` or — still holding the lock — awaits
`available_tabs.get()`; a releaser awaits the lock and then, under it,
removes the tab from the leased set and puts it on the queue.  A caller
that has finished `acquire` may later invoke `release` on its tab when its
`willRelease` flag is set.  Steps only exist where the source can actually
proceed: in particular a task awaiting the lock cannot run while another
task holds it, and a task awaiting `available_tabs.get()` cannot run while
the queue is empty. -/

/-- The three tasks of the C3 scenario. -/
inductive TaskId where
  | t0 | t1 | t2
  deriving DecidableEq, Repr

/-- Control point of one task inside `acquire`/`release`. -/
inductive TState where
  | start
  | inAcquire
  | waitQueue
  | doneAcq (tab : Nat)
  | relStart (tab : Nat)
  | relDone
  deriving DecidableEq, Repr

/-- Shared state plus each task's control point. -/
structure Config where
  lock : Option TaskId
  avail : List (Nat × Rat)
  inUse : List Nat
  nextId : Nat
  maxTabs : Nat
  maxIdle : Rat
  now : Rat
  tasks : TaskId → TState
  willRelease : TaskId → Bool

/-- One scheduler step of the task system; each rule is one segment of
the source that runs without interleaving on the pool state. -/
inductive Step : Config → Config → Prop where
  | lockForAcquire (c : Config) (i : TaskId) :
      c.tasks i = .start → c.lock = none →
      Step c { c with lock := some i,
                      tasks := Function.update c.tasks i .inAcquire }
  | reuseFresh (c : Config) (i : TaskId) (tid : Nat) (lu : Rat)
      (rest : List (Nat × Rat)) :
      c.tasks i = .inAcquire → c.lock = some i → c.avail = (tid, lu) :: rest →
      ¬ c.maxIdle < c.now - lu →
      Step c { c with avail := rest, inUse := addSet tid c.inUse, lock := none,
                      tasks := Function.update c.tasks i (.doneAcq tid) }
  | reuseStale (c : Config) (i : TaskId) (tid : Nat) (lu : Rat)
      (rest : List (Nat × Rat)) :
      c.tasks i = .inAcquire → c.lock = some i → c.avail = (tid, lu) :: rest →
      c.maxIdle < c.now - lu →
      Step c { c with avail := rest, inUse := addSet c.nextId c.inUse,
                      nextId := c.nextId + 1, lock := none,
                      tasks := Function.update c.tasks i (.doneAcq c.nextId) }
  | createNew (c : Config) (i : TaskId) :
      c.tasks i = .inAcquire → c.lock = some i → c.avail = [] →
      c.inUse.length < c.maxTabs →
      Step c { c with inUse := addSet c.nextId c.inUse, nextId := c.nextId + 1,
                      lock := none,
                      tasks := Function.update c.tasks i (.doneAcq c.nextId) }
  | blockOnQueue (c : Config) (i : TaskId) :
      c.tasks i = .inAcquire → c.lock = some i → c.avail = [] →
      c.maxTabs ≤ c.inUse.length →
      Step c { c with tasks := Function.update c.tasks i .waitQueue }
  | wakeFromQueue (c : Config) (i : TaskId) (tid : Nat) (lu : Rat)
      (rest : List (Nat × Rat)) :
      c.tasks i = .waitQueue → c.lock = some i → c.avail = (tid, lu) :: rest →
      Step c { c with avail := rest, inUse := addSet tid c.inUse, lock := none,
                      tasks := Function.update c.tasks i (.doneAcq tid) }
  | startRelease (c : Config) (i : TaskId) (tab : Nat) :
      c.tasks i = .doneAcq tab → c.willRelease i = true →
      Step c { c with tasks := Function.update c.tasks i (.relStart tab),
                      willRelease := Function.update c.willRelease i false }
  | doRelease (c : Config) (i : TaskId) (tab : Nat) :
      c.tasks i = .relStart tab → c.lock = none →
      Step c { c with inUse := c.inUse.erase tab,
                      avail := c.avail ++ [(tab, c.now)],
                      tasks := Function.update c.tasks i .relDone }

/-- Initial configuration of the C3 scenario: `TabPool(max_tabs=2)`, three
acquirers, the first of which will later release its tab. -/
def c3Init : Config :=
  { lock := none, avail := [], inUse := [], nextId := 0, maxTabs := 2,
    maxIdle := 300, now := 0,
    tasks := fun _ => .start,
    willRelease := fun i => decide (i = .t0) }

/-- Task 0 takes the lock. -/
def c3a : Config :=
  { c3Init with lock := some .t0,
                tasks := Function.update c3Init.tasks .t0 .inAcquire }

/-- Task 0 creates tab 0 and finishes its acquire, dropping the lock. -/
def c3b : Config :=
  { c3a with inUse := addSet c3a.nextId c3a.inUse, nextId := c3a.nextId + 1,
             lock := none,
             tasks := Function.update c3a.tasks .t0 (.doneAcq c3a.nextId) }

/-- Task 1 takes the lock. -/
def c3c : Config :=
  { c3b with lock := some .t1,
             tasks := Function.update c3b.tasks .t1 .inAcquire }

/-- Task 1 creates tab 1 and finishes its acquire, dropping the lock. -/
def c3d : Config :=
  { c3c with inUse := addSet c3c.nextId c3c.inUse, nextId := c3c.nextId + 1,
             lock := none,
             tasks := Function.update c3c.tasks .t1 (.doneAcq c3c.nextId) }

/-- Task 2 takes the lock. -/
def c3e : Config :=
  { c3d with lock := some .t2,
             tasks := Function.update c3d.tasks .t2 .inAcquire }

/-- Task 2 finds the queue empty at capacity and awaits
`available_tabs.get()` while still holding the lock. -/
def c3f : Config :=
  { c3e with tasks := Function.update c3e.tasks .t2 .waitQueue }

/-- Task 0 invokes `release(tab 0)` and awaits the pool lock. -/
def c3stuck : Config :=
  { c3f with tasks := Function.update c3f.tasks .t0 (.relStart 0),
             willRelease := Function.update c3f.willRelease .t0 false }

/-- C3 (code_bug evidence): with `max_tabs = 2` and three concurrent
`acquire` calls, the first two complete and the third suspends on
`available_tabs.get()` while holding `self.lock`; when the first caller
then invokes `release`, the reachable configuration `c3stuck` is a
deadlock: the release is pending (`relStart`), the third acquire has not
completed, and no task can take another step — `release` cannot acquire
the lock the waiter holds, so the waiter is never served, contradicting
the claim that the pending acquire completes once a release is invoked. -/
theorem c3_deadlock :
    Relation.ReflTransGen Step c3Init c3stuck ∧
    c3stuck.tasks .t0 = .relStart 0 ∧
    (∀ tab, c3stuck.tasks .t2 ≠ .doneAcq tab) ∧
    (∀ c', ¬ Step c3stuck c') := by
  refine ⟨?_, rfl, ?_, ?_⟩
  · have s1 : Step c3Init c3a := .lockForAcquire c3Init .t0 rfl rfl
    have s2 : Step c3a c3b := .createNew c3a .t0 rfl rfl rfl (by decide)
    have s3 : Step c3b c3c := .lockForAcquire c3b .t1 rfl rfl
    have s4 : Step c3c c3d := .createNew c3c .t1 rfl rfl rfl (by decide)
    have s5 : Step c3d c3e := .lockForAcquire c3d .t2 rfl rfl
    have s6 : Step c3e c3f := .blockOnQueue c3e .t2 rfl rfl rfl (by decide)
    have s7 : Step c3f c3stuck := .startRelease c3f .t0 0 rfl rfl
    exact .head s1 (.head s2 (.head s3 (.head s4 (.head s5 (.head s6
      (.head s7 .refl))))))
  · intro tab h
    exact TState.noConfusion h
  · intro c' h
    cases h with
    | lockForAcquire i h1 h2 =>
      cases i <;> exact TState.noConfusion h1
    | reuseFresh i tid lu rest h1 h2 h3 h4 =>
      exact List.noConfusion h3
    | reuseStale i tid lu rest h1 h2 h3 h4 =>
      exact List.noConfusion h3
    | createNew i h1 h2 h3 h4 =>
      cases i <;> exact TState.noConfusion h1
    | blockOnQueue i h1 h2 h3 h4 =>
      cases i <;> exact TState.noConfusion h1
    | wakeFromQueue i tid lu rest h1 h2 h3 =>
      exact List.noConfusion h3
    | startRelease i tab h1 h2 =>
      cases i
      · exact TState.noConfusion h1
      · exact Bool.noConfusion h2
      · exact TState.noConfusion h1
    | doRelease i tab h1 h2 =>
      exact Option.noConfusion h2

end Subdriver
